import Mathlib

/-! Shallow embedding of the DynamicModel_Package repository
(ModelBase.py and DynamicModel2D_Base.py).

Machine floats are idealised as exact rationals; an IEEE NaN is modelled by
the value `none` of `Val := Option ℚ`: arithmetic propagates it and every
comparison involving it is false, as for NaN.  Python dictionaries are
modelled as ordered association lists with the insertion-order semantics of
Python dicts, and pandas DataFrames as a column list plus a list of row
dictionaries (reading a row at a column the row dictionary is missing gives
NaN, exactly as pandas fills missing cells of a concatenation).  The while
loops of the integrators are given explicit fuel; running out of fuel models
non-termination of the source loop.

Theorems about "every registered model" carry the two facts that hold for
every model constructible through the Python API: the registry dict has
unique keys, and `__init__` pre-registers the time variable `t`. -/

/-- Scalar value of the simulation: a rational, or `none` for IEEE NaN. -/
abbrev Val := Option ℚ

/-- Addition on values; NaN propagates, as in IEEE arithmetic. -/
def vadd : Val → Val → Val
  | some a, some b => some (a + b)
  | _, _ => none

/-- Multiplication on values; NaN propagates, as in IEEE arithmetic. -/
def vmul : Val → Val → Val
  | some a, some b => some (a * b)
  | _, _ => none

/-- Strict comparison on values; any comparison with NaN is false, as in IEEE. -/
def vlt : Val → Val → Bool
  | some a, some b => decide (a < b)
  | _, _ => false

/-- First entry of an association list carrying the given key, if any. -/
def dictFindEntry {α : Type} : List (String × α) → String → Option (String × α)
  | [], _ => none
  | p :: l, k => if p.1 = k then some p else dictFindEntry l k

/-- Python dict lookup `d[k]`, as an `Option` (a `KeyError` is `none`). -/
def dictGet {α : Type} (l : List (String × α)) (k : String) : Option α :=
  (dictFindEntry l k).map Prod.snd

/-- Dict lookup with a default for the (unreachable in the modelled code
paths) missing-key case. -/
def dictGetD {α : Type} (l : List (String × α)) (k : String) (d : α) : α :=
  (dictGet l k).getD d

/-- Python `k in d`. -/
def dictContains {α : Type} (l : List (String × α)) (k : String) : Bool :=
  (dictFindEntry l k).isSome

/-- Python dict assignment `d[k] = v`: overwrite in place if the key exists,
else append, preserving insertion order. -/
def dictInsert {α : Type} : List (String × α) → String → α → List (String × α)
  | [], k, v => [(k, v)]
  | p :: l, k, v => if p.1 = k then (k, v) :: l else p :: dictInsert l k v

/-- Snapshot of variable values, as passed around by the Python code. -/
abbrev VarDict := List (String × Val)

/-- Parameter dictionary of one variable (plain numbers supplied by the caller). -/
abbrev ParamDict := List (String × ℚ)

/-- Type of the user-supplied derivative callables:
`derivative_function(variables, parameters)`. -/
abbrev DerivFn := VarDict → ParamDict → Val

/-- Registry entry stored for one variable by `add_variable`.  (The 2D
subclass additionally stores an `axis` tag, but nothing in the repository
ever reads it, so it is not modelled.) -/
structure VarInfo where
  derivative_function : DerivFn
  parameters : ParamDict

/-- The `DynamicModel` class; `vars` is its `self.variables` dict (the name
`variables` is reserved in Lean). -/
structure DynamicModel where
  vars : List (String × VarInfo)

/-- Entry installed for `t` by `DynamicModel.__init__`: derivative constant 1,
no parameters. -/
def defaultTInfo : VarInfo :=
  { derivative_function := fun _ _ => some 1, parameters := [] }

/-- The `DynamicModel()` constructor: registry holding only `t`. -/
def DynamicModel.init : DynamicModel :=
  { vars := [("t", defaultTInfo)] }

/-- The `add_variable` method: `self.variables[name] = {...}`. -/
def DynamicModel.add_variable (m : DynamicModel) (name : String)
    (derivative_function : DerivFn) (parameters : ParamDict) : DynamicModel :=
  { vars := dictInsert m.vars name
      { derivative_function := derivative_function, parameters := parameters } }

/-- The `compute_derivative` method: builds the fresh dict `derivatives` by
assigning `derivatives[variable] = derivative_function(variable_values,
parameters)` for each registry item in order. -/
def compute_derivative (m : DynamicModel) (variable_values : VarDict) : VarDict :=
  m.vars.foldl
    (fun derivatives p =>
      dictInsert derivatives p.1 (p.2.derivative_function variable_values p.2.parameters))
    []

/-- State-passing form of `compute_derivative`: the returned derivatives dict
paired with the model (`self`) as it stands after the call.  The method body
only reads `self.variables` and assigns only into its fresh local
`derivatives` dict, never into `self`, so `self` comes back unchanged. -/
def compute_derivative_st (m : DynamicModel) (variable_values : VarDict) :
    VarDict × DynamicModel :=
  (compute_derivative m variable_values, m)

/-- A pandas DataFrame: the column list and the row dictionaries in order.
Reading row `r` at column `c` yields `dictGetD r c none`: NaN where the row's
originating dict had no such key, exactly as `pd.concat` fills missing cells. -/
structure DataFrame where
  cols : List String
  rows : List VarDict
deriving DecidableEq

/-- The empty `pd.DataFrame(columns=list(self.variables.keys()))`. -/
def emptyDF (m : DynamicModel) : DataFrame :=
  { cols := m.vars.map Prod.fst, rows := [] }

/-- One step of `pd.concat([df, pd.DataFrame(r, index=[0])], ignore_index=True)`:
the column set becomes the union (new keys appended in order), the row is
appended. -/
def dfConcatRow (df : DataFrame) (r : VarDict) : DataFrame :=
  { cols := df.cols ++ (r.map Prod.fst).filter (fun k => decide (k ∉ df.cols))
    rows := df.rows ++ [r] }

/-- The last stored row dictionary of a frame (the frames of the integrators
always hold at least one row at every read). -/
def lastRow (df : DataFrame) : VarDict :=
  (df.rows.getLast?).getD []

/-- The dict `result_df.iloc[-1].to_dict()`: every column of the frame,
valued at the last row (NaN for cells the row dict does not carry). -/
def dfLastRowDict (df : DataFrame) : VarDict :=
  df.cols.map (fun c => (c, dictGetD (lastRow df) c none))

/-- The dict `result_df.iloc[i].to_dict()` for a row index `i`. -/
def dfRowDict (df : DataFrame) (i : ℕ) : VarDict :=
  df.cols.map (fun c => (c, dictGetD (df.rows.getD i []) c none))

/-- Column read `result_df[c].values[-1]`: `KeyError` (modelled by `.error c`)
if the frame has no column `c`, else the last row's value there. -/
def dfColLast (df : DataFrame) (c : String) : Except String Val :=
  if c ∈ df.cols then .ok (dictGetD (lastRow df) c none)
  else .error c

/-- Outcome of one integrator call: a returned trajectory, a propagated
`KeyError`, or fuel exhaustion (the source loop had not yet terminated). -/
inductive RunResult where
  | ok : DataFrame → RunResult
  | keyError : String → RunResult
  | hang : RunResult
deriving DecidableEq

/-- Body of one Euler step: `result_values[v] = variable_values_t[v] +
derivatives[v]*dt` for every registered variable `v` (the keys of
`derivatives`).  The looked-up keys are always columns of the frame, so the
dict lookups cannot fail in the modelled code paths. -/
def eulerStepValues (m : DynamicModel) (variable_values_t : VarDict) (dt : ℚ) : VarDict :=
  (compute_derivative m variable_values_t).map
    (fun p => (p.1, vadd (dictGetD variable_values_t p.1 none) (vmul p.2 (some dt))))

/-- The `while t < t_final` loop of `euler_integrate`, with explicit fuel. -/
def eulerLoop (m : DynamicModel) (t_final dt : ℚ) : ℕ → Val → DataFrame → RunResult
  | 0, t, result_df => if vlt t (some t_final) then .hang else .ok result_df
  | fuel + 1, t, result_df =>
    if vlt t (some t_final) then
      let variable_values_t := dfLastRowDict result_df
      let result_values := eulerStepValues m variable_values_t dt
      eulerLoop m t_final dt fuel (dictGetD result_values "t" none)
        (dfConcatRow result_df result_values)
    else .ok result_df

/-- The `if 't' not in variables_initial.keys(): variables_initial['t'] = 0`
defaulting step of `euler_integrate` (an in-place mutation of the caller's
dict; the mutated dict is what the caller observes after the call). -/
def defaultT (variables_initial : VarDict) : VarDict :=
  if dictContains variables_initial "t" then variables_initial
  else dictInsert variables_initial "t" (some 0)

/-- The `euler_integrate` method.  The second component of the result is the
post-call state of the caller's `variables_initial` dictionary (which the
method may have mutated in place by defaulting `t`). -/
def euler_integrate (m : DynamicModel) (variables_initial : VarDict)
    (t_final dt : ℚ) (fuel : ℕ) : RunResult × VarDict :=
  let vi := defaultT variables_initial
  let result_df := dfConcatRow (emptyDF m) vi
  match dfColLast result_df "t" with
  | .error k => (.keyError k, vi)
  | .ok t => (eulerLoop m t_final dt fuel t result_df, vi)

/-- The clamp `result_values_df[result_values_df < 1e-14] = 0` applied to one
cell: every value strictly below `1e-14` is replaced by exactly `0`; NaN
compares false and is kept. -/
def clampVal (x : Val) : Val :=
  if vlt x (some (1e-14 : ℚ)) then some 0 else x

/-- The `while t < t_final` loop of `euler_integrate_keep_positive`: the loop
variable `t` is read from `result_values` before clamping, while the stored
row is the clamped one. -/
def eulerLoopKP (m : DynamicModel) (t_final dt : ℚ) : ℕ → Val → DataFrame → RunResult
  | 0, t, result_df => if vlt t (some t_final) then .hang else .ok result_df
  | fuel + 1, t, result_df =>
    if vlt t (some t_final) then
      let variable_values_t := dfLastRowDict result_df
      let result_values := eulerStepValues m variable_values_t dt
      eulerLoopKP m t_final dt fuel (dictGetD result_values "t" none)
        (dfConcatRow result_df (result_values.map (fun p => (p.1, clampVal p.2))))
    else .ok result_df

/-- The `euler_integrate_keep_positive` method (no `t` defaulting). -/
def euler_integrate_keep_positive (m : DynamicModel) (variables_initial : VarDict)
    (t_final dt : ℚ) (fuel : ℕ) : RunResult :=
  let result_df := dfConcatRow (emptyDF m) variables_initial
  match dfColLast result_df "t" with
  | .error k => .keyError k
  | .ok t => eulerLoopKP m t_final dt fuel t result_df

/-- Matrices, modelling 2D numpy arrays as lists of rows. -/
abbrev Mat (α : Type) := List (List α)

/-- Bounds-checked read `m[i, j]`; `none` models numpy's IndexError. -/
def mget {α : Type} (m : Mat α) (i j : ℕ) : Option α :=
  (m[i]?).bind (fun row => row[j]?)

/-- Bounds-checked write `m[i, j] = v`; `none` models numpy's IndexError. -/
def mset {α : Type} (m : Mat α) (i j : ℕ) (v : α) : Option (Mat α) :=
  match m[i]? with
  | none => none
  | some row => if j < row.length then some (m.set i (row.set j v)) else none

/-- Model of `np.linspace(a, b, n)` (with its default `endpoint=True`):
`n` evenly spaced points from `a` to `b`.  For `n = 1` the quotient is `0/0 = 0`
in `ℚ` and the list is `[a]`, matching numpy. -/
def linspace (a b : ℚ) (n : ℕ) : List ℚ :=
  (List.range n).map (fun i : ℕ => a + (i : ℚ) * (b - a) / ((n : ℚ) - 1))

/-- First grid of `np.meshgrid(xs, ys)` with its default `indexing='xy'`:
shape `(ys.length, xs.length)`, every row a copy of `xs`. -/
def meshgridX (xs ys : List ℚ) : Mat ℚ :=
  ys.map (fun _ => xs)

/-- Second grid of `np.meshgrid(xs, ys)`: shape `(ys.length, xs.length)`,
row `i` constantly `ys[i]`. -/
def meshgridY (xs ys : List ℚ) : Mat ℚ :=
  ys.map (fun y => xs.map (fun _ => y))

/-- Model of `np.empty_like`: an uninitialised array of the same shape.  The
cell values are immaterial (the repository writes every cell it later reads,
and cells never written are never read on the non-error paths); NaN is used. -/
def emptyLike (m : Mat ℚ) : Mat Val :=
  m.map (fun row => row.map (fun _ => (none : Val)))

/-- The `DynamicModel2D` subclass: the inherited registry plus the two axis
variable names.  (Its `nullclines` dict and the plotting methods are
rendering-layer state the specification places out of scope.) -/
structure DynamicModel2D where
  toDynamicModel : DynamicModel
  variable_x : String
  variable_y : String

/-- The `DynamicModel2D.__init__` constructor: base `__init__`, then
`add_variable` for the x and the y variable (the `axis` tags it stores are
never read anywhere in the repository), recording the two names. -/
def DynamicModel2D.make (variable_x : String) (fx : DerivFn) (px : ParamDict)
    (variable_y : String) (fy : DerivFn) (py : ParamDict) : DynamicModel2D :=
  { toDynamicModel :=
      (DynamicModel.init.add_variable variable_x fx px).add_variable variable_y fy py
    variable_x := variable_x
    variable_y := variable_y }

/-- The dict literal `{'t': t, X_name: xv, Y_name: yv}` (sequential insertion). -/
def snapshot2D (t : ℚ) (xn : String) (xv : Val) (yn : String) (yv : Val) : VarDict :=
  dictInsert (dictInsert (dictInsert [] "t" (some t)) xn xv) yn yv

/-- Loop body of `create_meshgrid_derivatives` at grid cell `(i, j)`: read
`Xv[i,j]` and `Hv[i,j]`, evaluate the derivatives at the snapshot there, then
write `Ydot[i,j]` and `Xdot[i,j]` in source order.  The threaded state is the
pair `(Xdot, Ydot)`. -/
def fillCell (m2 : DynamicModel2D) (Xv Hv : Mat ℚ) (t : ℚ)
    (st : Mat Val × Mat Val) (i j : ℕ) : Option (Mat Val × Mat Val) := do
  let xv ← mget Xv i j
  let hv ← mget Hv i j
  let derivatives := compute_derivative m2.toDynamicModel
    (snapshot2D t m2.variable_x (some xv) m2.variable_y (some hv))
  let Yd ← mset st.2 i j (dictGetD derivatives m2.variable_y none)
  let Xd ← mset st.1 i j (dictGetD derivatives m2.variable_x none)
  pure (Xd, Yd)

/-- A `for k in range(n)` loop threading a state through a fallible body. -/
def forRange {α : Type} (n : ℕ) (f : α → ℕ → Option α) (a : α) : Option α :=
  (List.range n).foldlM f a

/-- The `create_meshgrid_derivatives` method of `DynamicModel2D`: meshgrid the
two linspaces, then fill `Xdot`/`Ydot` with the nested loops
`for i in range(n_X): for j in range(n_Y)`, returning `(Xv, Hv, Xdot, Ydot)`.
`none` models the run raising IndexError. -/
def create_meshgrid_derivatives (m2 : DynamicModel2D) (n_X n_Y : ℕ)
    (Xlim Ylim : ℚ × ℚ) (t : ℚ) : Option (Mat ℚ × Mat ℚ × Mat Val × Mat Val) :=
  let Xv := meshgridX (linspace Xlim.1 Xlim.2 n_X) (linspace Ylim.1 Ylim.2 n_Y)
  let Hv := meshgridY (linspace Xlim.1 Xlim.2 n_X) (linspace Ylim.1 Ylim.2 n_Y)
  match forRange n_X (fun st i => forRange n_Y (fun st2 j => fillCell m2 Xv Hv t st2 i j) st)
      (emptyLike Xv, emptyLike Hv) with
  | none => none
  | some st => some (Xv, Hv, st.1, st.2)

/-- Example derivative callable of `__main__`:
`derivative_function_x(variables, parameters) = parameters['a'] * variables['y']`. -/
def derivative_function_x : DerivFn :=
  fun vs ps => vmul (some (dictGetD ps "a" 0)) (dictGetD vs "y" none)

/-- Example derivative callable of `__main__`:
`derivative_function_y(variables, parameters) = -parameters['b'] * variables['x']`. -/
def derivative_function_y : DerivFn :=
  fun vs ps => vmul (some (-dictGetD ps "b" 0)) (dictGetD vs "x" none)

/-- The example model of `__main__`: variables `x` (parameter `a = 1`) and
`y` (parameter `b = 100`) on top of the pre-registered `t`. -/
def exampleModel : DynamicModel :=
  (DynamicModel.init.add_variable "x" derivative_function_x [("a", 1)]).add_variable
    "y" derivative_function_y [("b", 100)]

/-- Initial snapshot `{t: 0, x: 1, y: 2}` of the spec's linear analytic check. -/
def viC6 : VarDict := [("t", some 0), ("x", some 1), ("y", some 2)]

/-- One-variable model whose `x` has derivative constantly `0` (so a step
leaves `x` unchanged before the clamp). -/
def constModel : DynamicModel :=
  DynamicModel.init.add_variable "x" (fun _ _ => some 0) []

/-- Initial snapshot `{t: 0, x: -3}`. -/
def viNeg : VarDict := [("t", some 0), ("x", some (-3))]

/-- Trajectory produced by the clamped integrator on `constModel` from
`viNeg` with one step of `0.1`: the post-step `x = -3` is stored as `0`. -/
def dfNeg : DataFrame :=
  { cols := ["t", "x"], rows := [viNeg, [("t", some 0.1), ("x", some 0)]] }

/-- The clamped row stored by that run. -/
def rowNeg : VarDict := [("t", some 0.1), ("x", some 0)]

/-- Initial snapshot `{x: 1}` without the key `t`. -/
def viNoT : VarDict := [("x", some 1)]

/-- A 2D model with constant-zero derivative fields. -/
def m2Const : DynamicModel2D :=
  DynamicModel2D.make "x" (fun _ _ => some 0) [] "y" (fun _ _ => some 0) []

/-- Trajectory of `euler_integrate exampleModel viC6 0.1 0.1`. -/
def dfRunPlain : DataFrame :=
  { cols := ["t", "x", "y"],
    rows := [viC6, [("t", some 0.1), ("x", some 1.2), ("y", some (-8))]] }

/-- Trajectory of `euler_integrate_keep_positive exampleModel viC6 0.1 0.1`
(the post-step `y = -8` is below the clamp threshold and is stored as `0`). -/
def dfRunKP : DataFrame :=
  { cols := ["t", "x", "y"],
    rows := [viC6, [("t", some 0.1), ("x", some 1.2), ("y", some 0)]] }

/-- Trajectory of the unconstrained `euler_integrate constModel viNeg 0.05 0.1`
(no clamp: `x` stays `-3`). -/
def dfNegPlain : DataFrame :=
  { cols := ["t", "x"], rows := [viNeg, [("t", some 0.1), ("x", some (-3))]] }

/-- Shape predicate for the matrix model: `r` rows, each of `c` cells. -/
def matShape {α : Type} (m : Mat α) (r c : ℕ) : Prop :=
  m.length = r ∧ ∀ row ∈ m, row.length = c

/-- The derivative dict the grid sampler evaluates at cell `(i, j)`: the
snapshot holds `t`, the x variable at `xs[j]` and the y variable at `ys[i]`. -/
def gridDerivs (m2 : DynamicModel2D) (xs ys : List ℚ) (t : ℚ) (i j : ℕ) : VarDict :=
  compute_derivative m2.toDynamicModel
    (snapshot2D t m2.variable_x (some (xs.getD j 0)) m2.variable_y (some (ys.getD i 0)))

/-- The value the sampler stores in `Xdot[i, j]`. -/
def xTargetAt (m2 : DynamicModel2D) (xs ys : List ℚ) (t : ℚ) (i j : ℕ) : Val :=
  dictGetD (gridDerivs m2 xs ys t i j) m2.variable_x none

/-- The value the sampler stores in `Ydot[i, j]`. -/
def yTargetAt (m2 : DynamicModel2D) (xs ys : List ℚ) (t : ℚ) (i j : ℕ) : Val :=
  dictGetD (gridDerivs m2 xs ys t i j) m2.variable_y none

theorem dictFindEntry_key {α : Type} {l : List (String × α)} {k : String} {p : String × α}
    (h : dictFindEntry l k = some p) : p.1 = k := by
  induction l with
  | nil => simp [dictFindEntry] at h
  | cons q l ih =>
    by_cases hq : q.1 = k
    · rw [dictFindEntry, if_pos hq] at h
      injection h with h
      exact h ▸ hq
    · rw [dictFindEntry, if_neg hq] at h
      exact ih h

theorem dictFindEntry_map {α β : Type} (g : String × α → β) (l : List (String × α)) (k : String) :
    dictFindEntry (l.map (fun p => (p.1, g p))) k =
      (dictFindEntry l k).map (fun p => (p.1, g p)) := by
  induction l with
  | nil => rfl
  | cons q l ih => by_cases hq : q.1 = k <;> simp [dictFindEntry, hq, ih]

theorem dictFindEntry_eq_none {α : Type} (l : List (String × α)) (k : String) :
    dictFindEntry l k = none ↔ k ∉ l.map Prod.fst := by
  induction l with
  | nil => simp [dictFindEntry]
  | cons q l ih =>
    by_cases hq : q.1 = k
    · rw [dictFindEntry, if_pos hq]
      simp [hq]
    · have h' : ¬ k = q.1 := fun e => hq e.symm
      rw [dictFindEntry, if_neg hq, ih]
      simp [h']

theorem dictContains_iff {α : Type} (l : List (String × α)) (k : String) :
    dictContains l k = true ↔ k ∈ l.map Prod.fst := by
  simp [dictContains, Option.isSome_iff_ne_none, ne_eq, dictFindEntry_eq_none, not_not]

theorem dictGet_eq_none {α : Type} (l : List (String × α)) (k : String) :
    dictGet l k = none ↔ k ∉ l.map Prod.fst := by
  simp [dictGet, dictFindEntry_eq_none]

theorem dictFindEntry_of_get {α : Type} {l : List (String × α)} {k : String} {v : α}
    (h : dictGet l k = some v) : dictFindEntry l k = some (k, v) := by
  rcases hf : dictFindEntry l k with _ | p
  · rw [dictGet, hf] at h; simp at h
  · have hk := dictFindEntry_key hf
    rw [dictGet, hf] at h
    simp only [Option.map_some', Option.some.injEq] at h
    have hp : p = (k, v) := Prod.ext_iff.mpr ⟨hk, h⟩
    rw [hp]

theorem dictGet_tabulate {α : Type} (l : List String) (g : String → α) (k : String) :
    dictGet (l.map (fun c => (c, g c))) k = if k ∈ l then some (g k) else none := by
  induction l with
  | nil => simp [dictGet, dictFindEntry]
  | cons c l ih =>
    by_cases hc : c = k
    · subst hc; simp [dictGet, dictFindEntry]
    · have h' : ¬ k = c := fun e => hc e.symm
      simpa [dictGet, dictFindEntry, hc, h'] using ih

theorem dictInsert_keys {α : Type} (l : List (String × α)) (k : String) (v : α) :
    (dictInsert l k v).map Prod.fst =
      if k ∈ l.map Prod.fst then l.map Prod.fst else l.map Prod.fst ++ [k] := by
  induction l with
  | nil => simp [dictInsert]
  | cons p l ih =>
    by_cases h : p.1 = k
    · subst h; simp [dictInsert]
    · have h' : ¬ k = p.1 := fun e => h e.symm
      by_cases hk : k ∈ l.map Prod.fst <;>
        simp [dictInsert, if_neg h, ih, hk, h']

theorem dictInsert_of_not_mem {α : Type} {l : List (String × α)} {k : String}
    (h : k ∉ l.map Prod.fst) (v : α) : dictInsert l k v = l ++ [(k, v)] := by
  induction l with
  | nil => rfl
  | cons p l ih =>
    simp only [List.map_cons, List.mem_cons, not_or] at h
    rw [dictInsert, if_neg (fun e => h.1 e.symm), ih h.2]
    rfl

theorem dictGet_append_single_ne {α : Type} {l : List (String × α)} {k t : String}
    (hk : k ≠ t) (v : α) : dictGet (l ++ [(t, v)]) k = dictGet l k := by
  induction l with
  | nil =>
    have h' : ¬ t = k := fun e => hk e.symm
    simp [dictGet, dictFindEntry, h']
  | cons p l ih =>
    by_cases hp : p.1 = k
    · simp [dictGet, dictFindEntry, hp]
    · simpa [dictGet, dictFindEntry, hp] using ih

theorem dictGet_append_single_self {α : Type} {l : List (String × α)} {k : String}
    (h : k ∉ l.map Prod.fst) (v : α) : dictGet (l ++ [(k, v)]) k = some v := by
  induction l with
  | nil => simp [dictGet, dictFindEntry]
  | cons p l ih =>
    simp only [List.map_cons, List.mem_cons, not_or] at h
    have h1 : ¬ p.1 = k := fun e => h.1 e.symm
    simpa [dictGet, dictFindEntry, h1] using ih h.2

theorem foldl_dictInsert_eq_append {α β : Type} (g : String × α → β) :
    ∀ (l : List (String × α)) (acc : List (String × β)),
      (l.map Prod.fst).Nodup →
      (∀ k ∈ l.map Prod.fst, k ∉ acc.map Prod.fst) →
      l.foldl (fun d p => dictInsert d p.1 (g p)) acc = acc ++ l.map (fun p => (p.1, g p))
  | [], acc, _, _ => by simp
  | p :: l, acc, hnd, hdisj => by
    simp only [List.map_cons, List.nodup_cons] at hnd
    have hstep : dictInsert acc p.1 (g p) = acc ++ [(p.1, g p)] :=
      dictInsert_of_not_mem (hdisj p.1 (by simp)) (g p)
    have hdisj' : ∀ k ∈ l.map Prod.fst, k ∉ (acc ++ [(p.1, g p)]).map Prod.fst := by
      intro k hk
      simp only [List.map_append, List.mem_append, List.map_cons, List.map_nil,
        List.mem_singleton, not_or]
      refine ⟨hdisj k (by simp [hk]), fun e => hnd.1 (e ▸ hk)⟩
    have ihres := foldl_dictInsert_eq_append g l (acc ++ [(p.1, g p)]) hnd.2 hdisj'
    simp only [List.foldl_cons, hstep, ihres, List.append_assoc, List.map_cons,
      List.singleton_append]

theorem compute_derivative_eq_map {m : DynamicModel}
    (hnd : (m.vars.map Prod.fst).Nodup) (vv : VarDict) :
    compute_derivative m vv =
      m.vars.map (fun p => (p.1, p.2.derivative_function vv p.2.parameters)) := by
  have h := foldl_dictInsert_eq_append
    (fun p : String × VarInfo => p.2.derivative_function vv p.2.parameters)
    m.vars [] hnd (by intro k _ hk; simp at hk)
  simpa [compute_derivative] using h

theorem dictGet_dfLastRowDict (df : DataFrame) (k : String) :
    dictGet (dfLastRowDict df) k =
      if k ∈ df.cols then some (dictGetD (lastRow df) k none) else none := by
  simpa [dfLastRowDict] using
    dictGet_tabulate df.cols (fun c => dictGetD (lastRow df) c none) k

theorem eulerStepValues_eq_map {m : DynamicModel}
    (hnd : (m.vars.map Prod.fst).Nodup) (vvt : VarDict) (dt : ℚ) :
    eulerStepValues m vvt dt =
      m.vars.map (fun p => (p.1,
        vadd (dictGetD vvt p.1 none)
          (vmul (p.2.derivative_function vvt p.2.parameters) (some dt)))) := by
  rw [eulerStepValues, compute_derivative_eq_map hnd, List.map_map]
  rfl

theorem eulerStepValues_keys {m : DynamicModel}
    (hnd : (m.vars.map Prod.fst).Nodup) (vvt : VarDict) (dt : ℚ) :
    (eulerStepValues m vvt dt).map Prod.fst = m.vars.map Prod.fst := by
  rw [eulerStepValues_eq_map hnd, List.map_map]
  rfl

theorem dictGet_eulerStepValues_t {m : DynamicModel}
    (hnd : (m.vars.map Prod.fst).Nodup) (vvt : VarDict) (dt : ℚ) {ti : VarInfo}
    (h : dictGet m.vars "t" = some ti) :
    dictGet (eulerStepValues m vvt dt) "t" =
      some (vadd (dictGetD vvt "t" none)
        (vmul (ti.derivative_function vvt ti.parameters) (some dt))) := by
  have hf := dictFindEntry_of_get h
  rw [eulerStepValues_eq_map hnd, dictGet,
    dictFindEntry_map
      (fun p : String × VarInfo =>
        vadd (dictGetD vvt p.1 none)
          (vmul (p.2.derivative_function vvt p.2.parameters) (some dt)))
      m.vars "t",
    hf]
  rfl

theorem dfConcatRow_cols_of_subset {df : DataFrame} {r : VarDict}
    (h : ∀ k ∈ r.map Prod.fst, k ∈ df.cols) : (dfConcatRow df r).cols = df.cols := by
  have hnil : (r.map Prod.fst).filter (fun k => decide (k ∉ df.cols)) = [] := by
    rw [List.filter_eq_nil_iff]
    intro a ha
    simp [h a ha]
  show df.cols ++ (r.map Prod.fst).filter (fun k => decide (k ∉ df.cols)) = df.cols
  rw [hnil, List.append_nil]

theorem mem_dfConcatRow_cols (df : DataFrame) (r : VarDict) {k : String} (h : k ∈ df.cols) :
    k ∈ (dfConcatRow df r).cols := by
  simp [dfConcatRow, h]

theorem lastRow_dfConcatRow (df : DataFrame) (r : VarDict) :
    lastRow (dfConcatRow df r) = r := by
  simp [lastRow, dfConcatRow, List.getLast?_concat]

theorem eulerLoop_of_not_lt (m : DynamicModel) (t_final dt : ℚ) (fuel : ℕ) (t : Val)
    (df : DataFrame) (h : vlt t (some t_final) = false) :
    eulerLoop m t_final dt fuel t df = .ok df := by
  cases fuel <;> simp [eulerLoop, h]

theorem eulerLoopKP_of_not_lt (m : DynamicModel) (t_final dt : ℚ) (fuel : ℕ) (t : Val)
    (df : DataFrame) (h : vlt t (some t_final) = false) :
    eulerLoopKP m t_final dt fuel t df = .ok df := by
  cases fuel <;> simp [eulerLoopKP, h]

theorem eulerLoop_cols (m : DynamicModel) (t_final dt : ℚ)
    (hnd : (m.vars.map Prod.fst).Nodup) :
    ∀ (fuel : ℕ) (t : Val) (df df' : DataFrame),
      eulerLoop m t_final dt fuel t df = .ok df' →
      (∀ k ∈ m.vars.map Prod.fst, k ∈ df.cols) →
      df'.cols = df.cols := by
  intro fuel
  induction fuel with
  | zero =>
    intro t df df' h _
    simp only [eulerLoop] at h
    split at h
    · simp at h
    · cases h; rfl
  | succ fuel ih =>
    intro t df df' h hsub
    simp only [eulerLoop] at h
    split at h
    · have hkeys : ∀ k ∈ (eulerStepValues m (dfLastRowDict df) dt).map Prod.fst,
          k ∈ df.cols := by
        rw [eulerStepValues_keys hnd]
        exact hsub
      have hcols := dfConcatRow_cols_of_subset hkeys
      have hsub' : ∀ k ∈ m.vars.map Prod.fst,
          k ∈ (dfConcatRow df (eulerStepValues m (dfLastRowDict df) dt)).cols := by
        intro k hk
        rw [hcols]
        exact hsub k hk
      rw [ih _ _ _ h hsub', hcols]
    · cases h; rfl

theorem eulerLoopKP_cols (m : DynamicModel) (t_final dt : ℚ)
    (hnd : (m.vars.map Prod.fst).Nodup) :
    ∀ (fuel : ℕ) (t : Val) (df df' : DataFrame),
      eulerLoopKP m t_final dt fuel t df = .ok df' →
      (∀ k ∈ m.vars.map Prod.fst, k ∈ df.cols) →
      df'.cols = df.cols := by
  intro fuel
  induction fuel with
  | zero =>
    intro t df df' h _
    simp only [eulerLoopKP] at h
    split at h
    · simp at h
    · cases h; rfl
  | succ fuel ih =>
    intro t df df' h hsub
    simp only [eulerLoopKP] at h
    split at h
    · have hkeys0 : ((eulerStepValues m (dfLastRowDict df) dt).map
          (fun p => (p.1, clampVal p.2))).map Prod.fst = m.vars.map Prod.fst := by
        rw [List.map_map, ← eulerStepValues_keys hnd (dfLastRowDict df) dt]
        rfl
      have hkeys : ∀ k ∈ ((eulerStepValues m (dfLastRowDict df) dt).map
          (fun p => (p.1, clampVal p.2))).map Prod.fst, k ∈ df.cols := by
        rw [hkeys0]
        exact hsub
      have hcols := dfConcatRow_cols_of_subset hkeys
      have hsub' : ∀ k ∈ m.vars.map Prod.fst,
          k ∈ (dfConcatRow df ((eulerStepValues m (dfLastRowDict df) dt).map
            (fun p => (p.1, clampVal p.2)))).cols := by
        intro k hk
        rw [hcols]
        exact hsub k hk
      rw [ih _ _ _ h hsub', hcols]
    · cases h; rfl

theorem euler_integrate_eq_loop (m : DynamicModel) (vi : VarDict) (t_final dt : ℚ)
    (fuel : ℕ) (ht : "t" ∈ m.vars.map Prod.fst) :
    euler_integrate m vi t_final dt fuel =
      (eulerLoop m t_final dt fuel
        (dictGetD (lastRow (dfConcatRow (emptyDF m) (defaultT vi))) "t" none)
        (dfConcatRow (emptyDF m) (defaultT vi)), defaultT vi) := by
  have htc : "t" ∈ (dfConcatRow (emptyDF m) (defaultT vi)).cols :=
    mem_dfConcatRow_cols _ _ (show "t" ∈ (emptyDF m).cols from ht)
  rw [euler_integrate]
  rw [dfColLast, if_pos htc]

theorem euler_integrate_keep_positive_eq_loop (m : DynamicModel) (vi : VarDict)
    (t_final dt : ℚ) (fuel : ℕ) (ht : "t" ∈ m.vars.map Prod.fst) :
    euler_integrate_keep_positive m vi t_final dt fuel =
      eulerLoopKP m t_final dt fuel
        (dictGetD (lastRow (dfConcatRow (emptyDF m) vi)) "t" none)
        (dfConcatRow (emptyDF m) vi) := by
  have htc : "t" ∈ (dfConcatRow (emptyDF m) vi).cols :=
    mem_dfConcatRow_cols _ _ (show "t" ∈ (emptyDF m).cols from ht)
  rw [euler_integrate_keep_positive]
  rw [dfColLast, if_pos htc]

theorem defaultT_keys_subset {m : DynamicModel} {vi : VarDict}
    (ht : "t" ∈ m.vars.map Prod.fst)
    (hsub : ∀ k ∈ vi.map Prod.fst, k ∈ m.vars.map Prod.fst) :
    ∀ k ∈ (defaultT vi).map Prod.fst, k ∈ m.vars.map Prod.fst := by
  intro k hk
  rw [defaultT] at hk
  split at hk
  · exact hsub k hk
  · rw [dictInsert_keys] at hk
    split at hk
    · exact hsub k hk
    · rcases List.mem_append.mp hk with h1 | h2
      · exact hsub k h1
      · simp only [List.mem_singleton] at h2
        subst h2
        exact ht

theorem df0_cols {m : DynamicModel} {vi : VarDict}
    (hsub : ∀ k ∈ vi.map Prod.fst, k ∈ m.vars.map Prod.fst) :
    (dfConcatRow (emptyDF m) vi).cols = m.vars.map Prod.fst :=
  dfConcatRow_cols_of_subset hsub

theorem eulerLoopKP_rows (m : DynamicModel) (t_final dt : ℚ) :
    ∀ (fuel : ℕ) (t : Val) (df df' : DataFrame),
      eulerLoopKP m t_final dt fuel t df = .ok df' →
      ∀ r ∈ df'.rows, r ∈ df.rows ∨ ∃ s : VarDict, r = s.map (fun p => (p.1, clampVal p.2)) := by
  intro fuel
  induction fuel with
  | zero =>
    intro t df df' h r hr
    simp only [eulerLoopKP] at h
    split at h
    · simp at h
    · cases h; exact Or.inl hr
  | succ fuel ih =>
    intro t df df' h r hr
    simp only [eulerLoopKP] at h
    split at h
    · rcases ih _ _ _ h r hr with hin | hex
      · have hsplit : r ∈ df.rows ∨
            r = (eulerStepValues m (dfLastRowDict df) dt).map (fun p => (p.1, clampVal p.2)) := by
          simpa [dfConcatRow] using hin
        rcases hsplit with h1 | h2
        · exact Or.inl h1
        · exact Or.inr ⟨eulerStepValues m (dfLastRowDict df) dt, h2⟩
      · exact Or.inr hex
    · cases h; exact Or.inl hr

/-- C6: for the model with registered variables `x` (derivative `a*y`, `a = 1`)
and `y` (derivative `-b*x`, `b = 100`) and initial snapshot `{t: 0, x: 1, y: 2}`,
one Euler step of size `0.1` in `euler_integrate` produces the row
`x = 1.2`, `y = -8.0`, `t = 0.1`. -/
theorem c6_linear_step :
    euler_integrate exampleModel viC6 0.1 0.1 1 =
      (.ok { cols := ["t", "x", "y"],
             rows := [viC6, [("t", some 0.1), ("x", some 1.2), ("y", some (-8))]] },
        viC6) := by
  with_unfolding_all decide

/-- C7: for every model whose registry carries the default entry for `t`
(derivative constantly 1) and for every snapshot, the Derivative Evaluator
returns 1 for the time variable, independent of all other snapshot values. -/
theorem c7_time_derivative_one (m : DynamicModel) (vv : VarDict) (ti : VarInfo)
    (hnd : (m.vars.map Prod.fst).Nodup)
    (hti : dictGet m.vars "t" = some ti)
    (hfn : ∀ s, ti.derivative_function s ti.parameters = some 1) :
    dictGet (compute_derivative m vv) "t" = some (some 1) := by
  have hf := dictFindEntry_of_get hti
  rw [compute_derivative_eq_map hnd, dictGet,
    dictFindEntry_map
      (fun p : String × VarInfo => p.2.derivative_function vv p.2.parameters) m.vars "t",
    hf]
  exact congrArg some (hfn vv)

/-- Witness for C7: the evaluator of a fresh model at snapshot `{x: 5}`. -/
theorem c7_time_derivative_one_witness :
    dictGet (compute_derivative DynamicModel.init [("x", some 5)]) "t" = some (some 1) :=
  c7_time_derivative_one DynamicModel.init [("x", some 5)] defaultTInfo
    (by decide) rfl (fun _ => rfl)

/-- C9: the Derivative Evaluator is pure: it returns `self` unchanged, and a
second call on the returned model with the identical snapshot returns an
identical derivative dict (the registered callables are Lean functions,
hence pure, matching the claim's premise). -/
theorem c9_evaluator_pure (m : DynamicModel) (vv : VarDict) :
    (compute_derivative_st m vv).2 = m ∧
      (compute_derivative_st (compute_derivative_st m vv).2 vv).1 =
        (compute_derivative_st m vv).1 :=
  ⟨rfl, rfl⟩

/-- C10: called on an initial snapshot lacking `t`, `euler_integrate` mutates
the caller's dict in place by appending `t ↦ 0`: afterwards the dict is the
old one with `t ↦ 0` appended, it contains `t` with value `0`, every other
key's binding is unchanged, and the key list is the old one plus `t`. -/
theorem c10_initial_dict_mutation (m : DynamicModel) (vi : VarDict)
    (t_final dt : ℚ) (fuel : ℕ) (hvi : "t" ∉ vi.map Prod.fst) :
    (euler_integrate m vi t_final dt fuel).2 = vi ++ [("t", some 0)] ∧
      dictGet (euler_integrate m vi t_final dt fuel).2 "t" = some (some 0) ∧
      (∀ k, k ≠ "t" →
        dictGet (euler_integrate m vi t_final dt fuel).2 k = dictGet vi k) ∧
      ((euler_integrate m vi t_final dt fuel).2).map Prod.fst =
        vi.map Prod.fst ++ ["t"] := by
  have hsnd : (euler_integrate m vi t_final dt fuel).2 = defaultT vi := by
    rw [euler_integrate]
    rcases dfColLast (dfConcatRow (emptyDF m) (defaultT vi)) "t" with k | t <;> rfl
  have hcont : ¬ dictContains vi "t" = true :=
    fun hc => hvi ((dictContains_iff vi "t").mp hc)
  have hins : defaultT vi = vi ++ [("t", some 0)] := by
    rw [defaultT, if_neg hcont]
    exact dictInsert_of_not_mem hvi (some 0)
  rw [hsnd, hins]
  refine ⟨rfl, dictGet_append_single_self hvi (some 0), ?_, by simp⟩
  intro k hk
  exact dictGet_append_single_ne hk (some 0)

/-- Witness for C10: on the `t`-less snapshot `{x: 1}` the binding of `x` is
untouched by the call's in-place mutation. -/
theorem c10_initial_dict_mutation_witness :
    dictGet (euler_integrate exampleModel viNoT 1 0.1 3).2 "x" = dictGet viNoT "x" :=
  (c10_initial_dict_mutation exampleModel viNoT 1 0.1 3 (by decide)).2.2.1 "x" (by decide)

/-- C3 counterexample: on the initial snapshot `{x: 1}` without `t`, the
clamped integrator does not raise any `KeyError`-class condition: the frame's
`t` column exists (created from the registry) with value NaN, `NaN < t_final`
is false, and the call returns the one-row trajectory. -/
theorem c3_counterexample :
    euler_integrate_keep_positive DynamicModel.init viNoT 1 0.1 3 =
      .ok { cols := ["t", "x"], rows := [viNoT] } := by
  with_unfolding_all decide

/-- C3 amended: for every model (with `t` registered) and every initial
snapshot lacking `t`, the clamped integrator returns the single-row initial
trajectory rather than failing (the `t` column exists from the registry and
reads NaN, so the loop never runs), while `euler_integrate` defaults `t` to
`0` in the caller's dict and proceeds exactly as on the completed snapshot. -/
theorem c3_missing_t (m : DynamicModel) (vi : VarDict) (t_final dt : ℚ) (fuel : ℕ)
    (ht : "t" ∈ m.vars.map Prod.fst) (hvi : "t" ∉ vi.map Prod.fst) :
    euler_integrate_keep_positive m vi t_final dt fuel =
      .ok (dfConcatRow (emptyDF m) vi) ∧
    euler_integrate m vi t_final dt fuel =
      ((euler_integrate m (dictInsert vi "t" (some 0)) t_final dt fuel).1,
        dictInsert vi "t" (some 0)) := by
  have hcont : ¬ dictContains vi "t" = true :=
    fun hc => hvi ((dictContains_iff vi "t").mp hc)
  have hd : defaultT vi = dictInsert vi "t" (some 0) := by
    rw [defaultT, if_neg hcont]
  have hmem : "t" ∈ (dictInsert vi "t" (some 0)).map Prod.fst := by
    rw [dictInsert_keys, if_neg hvi]
    simp
  have hd2 : defaultT (dictInsert vi "t" (some 0)) = dictInsert vi "t" (some 0) := by
    rw [defaultT, if_pos ((dictContains_iff _ "t").mpr hmem)]
  constructor
  · rw [euler_integrate_keep_positive_eq_loop m vi t_final dt fuel ht]
    have hget : dictGetD (lastRow (dfConcatRow (emptyDF m) vi)) "t" none = none := by
      rw [lastRow_dfConcatRow, dictGetD, (dictGet_eq_none vi "t").mpr hvi]
      rfl
    rw [hget]
    exact eulerLoopKP_of_not_lt _ _ _ _ _ _ rfl
  · rw [euler_integrate_eq_loop m vi t_final dt fuel ht,
      euler_integrate_eq_loop m (dictInsert vi "t" (some 0)) t_final dt fuel ht, hd, hd2]

/-- Witness for C3 amended, at a fresh model and the snapshot `{x: 1}`. -/
theorem c3_missing_t_witness :
    euler_integrate_keep_positive DynamicModel.init viNoT 0.5 0.1 2 =
      .ok (dfConcatRow (emptyDF DynamicModel.init) viNoT) :=
  (c3_missing_t DynamicModel.init viNoT 0.5 0.1 2 (by decide) (by decide)).1

/-- C1 counterexample: running the clamped integrator on `constModel` from
`{t: 0, x: -3}` with one step of size `0.1` stores the meaningfully negative
post-step value `x = -3` as exactly `0` — it is not left unchanged at `-3`. -/
theorem c1_counterexample :
    euler_integrate_keep_positive constModel viNeg 0.05 0.1 2 = .ok dfNeg ∧
      dictGet (lastRow dfNeg) "x" = some (some 0) ∧
      dictGet (lastRow dfNeg) "x" ≠ some (some (-3)) := by
  with_unfolding_all decide

/-- C1 amended (the clamp zeroes every value below the threshold, it is not a
noise floor near zero only): in every run of the clamped integrator, every
stored row other than the initial snapshot is an image of the per-cell clamp,
and that clamp sends every value strictly below `1e-14` — the near-zero
`5e-15` and equally the meaningfully negative `-3` — to exactly `0`. -/
theorem c1_clamp_all_below_threshold (m : DynamicModel) (vi : VarDict)
    (t_final dt : ℚ) (fuel : ℕ) (df : DataFrame) (r : VarDict)
    (ht : "t" ∈ m.vars.map Prod.fst)
    (hrun : euler_integrate_keep_positive m vi t_final dt fuel = .ok df)
    (hr : r ∈ df.rows) :
    (r = vi ∨ ∃ s : VarDict, r = s.map (fun p => (p.1, clampVal p.2))) ∧
      clampVal (some 5e-15) = some 0 ∧ clampVal (some (-3)) = some 0 := by
  refine ⟨?_, by with_unfolding_all decide, by with_unfolding_all decide⟩
  rw [euler_integrate_keep_positive_eq_loop m vi t_final dt fuel ht] at hrun
  rcases eulerLoopKP_rows m t_final dt fuel _ _ _ hrun r hr with hin | hex
  · left
    have h0 : r ∈ (emptyDF m).rows ++ [vi] := by simpa [dfConcatRow] using hin
    simpa [emptyDF] using h0
  · exact Or.inr hex

/-- Witness for C1 amended: the clamped row of the `constModel` run from
`{t: 0, x: -3}` is a clamp image, and the clamp sends `5e-15` and `-3` to `0`. -/
theorem c1_clamp_all_below_threshold_witness :
    (rowNeg = viNeg ∨ ∃ s : VarDict, rowNeg = s.map (fun p => (p.1, clampVal p.2))) ∧
      clampVal (some 5e-15) = some 0 ∧ clampVal (some (-3)) = some 0 :=
  c1_clamp_all_below_threshold constModel viNeg 0.05 0.1 2 dfNeg rowNeg
    (by decide) (by with_unfolding_all decide) (by with_unfolding_all decide)

/-- C8: for every integration call of either variant on an initial snapshot
whose key set is contained in the registered variable names, whenever that
variant returns a trajectory its frame's column list is exactly the
registered name list and every row read from the frame carries exactly that
column set (the two variants are covered independently: one variant may hang
while the other returns); and, unconditionally, the key set of the
Derivative Evaluator's result equals the registered name set. -/
theorem c8_column_sets (m : DynamicModel) (vi : VarDict) (t_final dt : ℚ) (fuel : ℕ)
    (hnd : (m.vars.map Prod.fst).Nodup)
    (ht : "t" ∈ m.vars.map Prod.fst)
    (hsub : ∀ k ∈ vi.map Prod.fst, k ∈ m.vars.map Prod.fst) :
    (∀ df1 : DataFrame, (euler_integrate m vi t_final dt fuel).1 = .ok df1 →
      df1.cols = m.vars.map Prod.fst ∧
      ∀ i, (dfRowDict df1 i).map Prod.fst = df1.cols) ∧
    (∀ df2 : DataFrame, euler_integrate_keep_positive m vi t_final dt fuel = .ok df2 →
      df2.cols = m.vars.map Prod.fst ∧
      ∀ i, (dfRowDict df2 i).map Prod.fst = df2.cols) ∧
    ∀ vv, (compute_derivative m vv).map Prod.fst = m.vars.map Prod.fst := by
  have hsub' := defaultT_keys_subset ht hsub
  have hc0 : (dfConcatRow (emptyDF m) (defaultT vi)).cols = m.vars.map Prod.fst :=
    df0_cols hsub'
  have hc0mem : ∀ k ∈ m.vars.map Prod.fst,
      k ∈ (dfConcatRow (emptyDF m) (defaultT vi)).cols := by
    intro k hk
    rw [hc0]
    exact hk
  have hc2 : (dfConcatRow (emptyDF m) vi).cols = m.vars.map Prod.fst := df0_cols hsub
  have hc2mem : ∀ k ∈ m.vars.map Prod.fst, k ∈ (dfConcatRow (emptyDF m) vi).cols := by
    intro k hk
    rw [hc2]
    exact hk
  refine ⟨?_, ?_, ?_⟩
  · intro df1 h1
    rw [euler_integrate_eq_loop m vi t_final dt fuel ht] at h1
    refine ⟨?_, ?_⟩
    · rw [eulerLoop_cols m t_final dt hnd fuel _ _ df1 h1 hc0mem, hc0]
    · intro i
      rw [dfRowDict, List.map_map]
      exact List.map_id df1.cols
  · intro df2 h2
    rw [euler_integrate_keep_positive_eq_loop m vi t_final dt fuel ht] at h2
    refine ⟨?_, ?_⟩
    · rw [eulerLoopKP_cols m t_final dt hnd fuel _ _ df2 h2 hc2mem, hc2]
    · intro i
      rw [dfRowDict, List.map_map]
      exact List.map_id df2.cols
  · intro vv
    rw [compute_derivative_eq_map hnd, List.map_map]
    rfl

/-- Witness for C8: the column list of the concrete `exampleModel` run of the
unconstrained variant equals its registered name list. -/
theorem c8_column_sets_witness :
    dfRunPlain.cols = exampleModel.vars.map Prod.fst :=
  ((c8_column_sets exampleModel viC6 0.1 0.1 1 (by decide) (by decide) (by decide)).1
    dfRunPlain (by with_unfolding_all decide)).1

theorem eulerLoop_default_t_time (m : DynamicModel) (t_final dt : ℚ) (ti : VarInfo)
    (hnd : (m.vars.map Prod.fst).Nodup)
    (ht : "t" ∈ m.vars.map Prod.fst)
    (hti : dictGet m.vars "t" = some ti)
    (hfn : ∀ s, ti.derivative_function s ti.parameters = some 1) :
    ∀ (fuel : ℕ) (τ : ℚ) (df : DataFrame),
      (∀ k ∈ m.vars.map Prod.fst, k ∈ df.cols) →
      dictGet (lastRow df) "t" = some (some τ) →
      t_final ≤ τ + fuel * dt →
      ∃ (df' : DataFrame) (q : ℚ),
        eulerLoop m t_final dt fuel (some τ) df = .ok df' ∧
        dictGet (lastRow df') "t" = some (some q) ∧
        t_final ≤ q ∧ (τ < t_final → q < t_final + dt) ∧ (¬ τ < t_final → q = τ) := by
  intro fuel
  induction fuel with
  | zero =>
    intro τ df hcols hlast hbound
    have hge : t_final ≤ τ := by simpa using hbound
    have hv : vlt (some τ) (some t_final) = false := by
      simp only [vlt, decide_eq_false_iff_not, not_lt]
      exact hge
    exact ⟨df, τ, eulerLoop_of_not_lt _ _ _ _ _ _ hv, hlast, hge,
      fun hlt => absurd hlt (not_lt.mpr hge), fun _ => rfl⟩
  | succ fuel ih =>
    intro τ df hcols hlast hbound
    by_cases hlt : τ < t_final
    · have hv : vlt (some τ) (some t_final) = true := by
        simp only [vlt, decide_eq_true_eq]
        exact hlt
      have htcol : "t" ∈ df.cols := hcols "t" ht
      have hvvt : dictGetD (dfLastRowDict df) "t" none = some τ := by
        rw [dictGetD, dictGet_dfLastRowDict, if_pos htcol]
        simp [dictGetD, hlast]
      have hstep_t : dictGet (eulerStepValues m (dfLastRowDict df) dt) "t" =
          some (some (τ + dt)) := by
        rw [dictGet_eulerStepValues_t hnd (dfLastRowDict df) dt hti, hvvt,
          hfn (dfLastRowDict df)]
        simp [vadd, vmul]
      have hnew_t : dictGetD (eulerStepValues m (dfLastRowDict df) dt) "t" none =
          some (τ + dt) := by
        rw [dictGetD, hstep_t]
        rfl
      have hlast' : dictGet (lastRow (dfConcatRow df
          (eulerStepValues m (dfLastRowDict df) dt))) "t" = some (some (τ + dt)) := by
        rw [lastRow_dfConcatRow]
        exact hstep_t
      have hcols' : ∀ k ∈ m.vars.map Prod.fst,
          k ∈ (dfConcatRow df (eulerStepValues m (dfLastRowDict df) dt)).cols :=
        fun k hk => mem_dfConcatRow_cols _ _ (hcols k hk)
      have hbound' : t_final ≤ (τ + dt) + fuel * dt := by
        push_cast at hbound ⊢
        linarith
      obtain ⟨df', q, hrun, hlq, hq1, hq2, hq3⟩ := ih (τ + dt) _ hcols' hlast' hbound'
      refine ⟨df', q, ?_, hlq, hq1, fun _ => ?_, fun hcon => absurd hlt hcon⟩
      · simp only [eulerLoop]
        rw [if_pos hv, hnew_t]
        exact hrun
      · by_cases hlt2 : τ + dt < t_final
        · exact hq2 hlt2
        · rw [hq3 hlt2]
          linarith
    · have hv : vlt (some τ) (some t_final) = false := by
        simp only [vlt, decide_eq_false_iff_not]
        exact hlt
      exact ⟨df, τ, eulerLoop_of_not_lt _ _ _ _ _ _ hv, hlast, not_lt.mp hlt,
        fun h => absurd h hlt, fun _ => rfl⟩

/-- C4: for every registered model with the default `t` derivative, every
`step_size > 0` and every `t_final` greater than the initial `t` (the value
after the method's own defaulting of a missing `t` to `0`), `euler_integrate`
terminates — some finite fuel makes the while loop exit through its guard —
and the time of the last trajectory row lies in `[t_final, t_final + dt)`:
at least `t_final`, overshooting by less than one step. -/
theorem c4_termination (m : DynamicModel) (vi : VarDict) (t_final dt t0 : ℚ)
    (ti : VarInfo)
    (hnd : (m.vars.map Prod.fst).Nodup)
    (ht : "t" ∈ m.vars.map Prod.fst)
    (hti : dictGet m.vars "t" = some ti)
    (hfn : ∀ s, ti.derivative_function s ti.parameters = some 1)
    (ht0 : dictGet (defaultT vi) "t" = some (some t0))
    (hdt : 0 < dt) (htf : t0 < t_final) :
    ∃ (fuel : ℕ) (df : DataFrame) (q : ℚ),
      (euler_integrate m vi t_final dt fuel).1 = .ok df ∧
      dictGet (lastRow df) "t" = some (some q) ∧
      t_final ≤ q ∧ q < t_final + dt := by
  obtain ⟨n, hn⟩ := exists_nat_ge ((t_final - t0) / dt)
  have hbound : t_final ≤ t0 + n * dt := by
    have h2 := (div_le_iff₀ hdt).mp hn
    linarith
  have hlastdf0 : dictGet (lastRow (dfConcatRow (emptyDF m) (defaultT vi))) "t" =
      some (some t0) := by
    rw [lastRow_dfConcatRow]
    exact ht0
  have hcols0 : ∀ k ∈ m.vars.map Prod.fst,
      k ∈ (dfConcatRow (emptyDF m) (defaultT vi)).cols := by
    intro k hk
    exact mem_dfConcatRow_cols _ _ (show k ∈ (emptyDF m).cols from hk)
  obtain ⟨df, q, hrun, hlq, hq1, hq2, _⟩ :=
    eulerLoop_default_t_time m t_final dt ti hnd ht hti hfn n t0 _ hcols0 hlastdf0 hbound
  refine ⟨n, df, q, ?_, hlq, hq1, hq2 htf⟩
  rw [euler_integrate_eq_loop m vi t_final dt n ht]
  show eulerLoop m t_final dt n
      (dictGetD (lastRow (dfConcatRow (emptyDF m) (defaultT vi))) "t" none)
      (dfConcatRow (emptyDF m) (defaultT vi)) = .ok df
  have hload : dictGetD (lastRow (dfConcatRow (emptyDF m) (defaultT vi))) "t" none =
      some t0 := by
    rw [dictGetD, hlastdf0]
    rfl
  rw [hload]
  exact hrun

/-- Witness for C4 on `constModel` from `{t: 0, x: -3}` with `t_final = 1`,
`dt = 0.1`. -/
theorem c4_termination_witness :
    ∃ (fuel : ℕ) (df : DataFrame) (q : ℚ),
      (euler_integrate constModel viNeg 1 0.1 fuel).1 = .ok df ∧
      dictGet (lastRow df) "t" = some (some q) ∧
      1 ≤ q ∧ q < 1 + 0.1 :=
  c4_termination constModel viNeg 1 0.1 0 defaultTInfo (by decide) (by decide)
    rfl (fun _ => rfl) (by with_unfolding_all decide) (by norm_num) (by norm_num)

theorem getD_at_last {α : Type} (l : List α) (d : α) :
    l.getD (l.length - 1) d = (l.getLast?).getD d := by
  rw [List.getLast?_eq_getElem?, List.getD_eq_getElem?_getD]

theorem getD_concat_at_length {α : Type} (l : List α) (a : α) (d : α) :
    (l ++ [a]).getD l.length d = a := by
  rw [List.getD_eq_getElem?_getD, List.getElem?_concat_length]
  rfl

theorem eulerLoop_time_chain (m : DynamicModel) (t_final dt : ℚ) (ti : VarInfo)
    (hnd : (m.vars.map Prod.fst).Nodup)
    (ht : "t" ∈ m.vars.map Prod.fst)
    (hti : dictGet m.vars "t" = some ti)
    (hfn : ∀ s, ti.derivative_function s ti.parameters = some 1) :
    ∀ (fuel : ℕ) (t : Val) (df df' : DataFrame),
      eulerLoop m t_final dt fuel t df = .ok df' →
      (∀ k ∈ m.vars.map Prod.fst, k ∈ df.cols) →
      df.rows ≠ [] →
      (∀ τ : ℚ, t = some τ → dictGet (lastRow df) "t" = some (some τ)) →
      (∀ i, i + 1 < df.rows.length →
        ∃ q : ℚ, dictGet (df.rows.getD i []) "t" = some (some q) ∧
          dictGet (df.rows.getD (i+1) []) "t" = some (some (q + dt))) →
      ∀ i, i + 1 < df'.rows.length →
        ∃ q : ℚ, dictGet (df'.rows.getD i []) "t" = some (some q) ∧
          dictGet (df'.rows.getD (i+1) []) "t" = some (some (q + dt)) := by
  intro fuel
  induction fuel with
  | zero =>
    intro t df df' h _ _ _ hchain
    simp only [eulerLoop] at h
    split at h
    · simp at h
    · cases h
      exact hchain
  | succ fuel ih =>
    intro t df df' h hcols hne hlink hchain
    simp only [eulerLoop] at h
    split at h
    case isTrue hcond =>
      rcases t with _ | τ
      · rw [show vlt none (some t_final) = false from rfl] at hcond
        cases hcond
      · have hlastτ := hlink τ rfl
        have htcol : "t" ∈ df.cols := hcols "t" ht
        have hvvt : dictGetD (dfLastRowDict df) "t" none = some τ := by
          rw [dictGetD, dictGet_dfLastRowDict, if_pos htcol]
          simp [dictGetD, hlastτ]
        have hstep_t : dictGet (eulerStepValues m (dfLastRowDict df) dt) "t" =
            some (some (τ + dt)) := by
          rw [dictGet_eulerStepValues_t hnd (dfLastRowDict df) dt hti, hvvt,
            hfn (dfLastRowDict df)]
          simp [vadd, vmul]
        have hnew_t : dictGetD (eulerStepValues m (dfLastRowDict df) dt) "t" none =
            some (τ + dt) := by
          rw [dictGetD, hstep_t]
          rfl
        have hrows2 : (dfConcatRow df (eulerStepValues m (dfLastRowDict df) dt)).rows =
            df.rows ++ [eulerStepValues m (dfLastRowDict df) dt] := rfl
        have hchain2 : ∀ i, i + 1 <
            (dfConcatRow df (eulerStepValues m (dfLastRowDict df) dt)).rows.length →
            ∃ q : ℚ, dictGet ((dfConcatRow df
                (eulerStepValues m (dfLastRowDict df) dt)).rows.getD i []) "t" =
                some (some q) ∧
              dictGet ((dfConcatRow df
                (eulerStepValues m (dfLastRowDict df) dt)).rows.getD (i+1) []) "t" =
                some (some (q + dt)) := by
          intro i hi
          rw [hrows2] at hi ⊢
          rw [List.length_append, List.length_singleton] at hi
          by_cases hi2 : i + 1 < df.rows.length
          · obtain ⟨q, hq1, hq2⟩ := hchain i hi2
            refine ⟨q, ?_, ?_⟩
            · rw [List.getD_append _ _ _ _ (by omega)]
              exact hq1
            · rw [List.getD_append _ _ _ _ hi2]
              exact hq2
          · have hieq : i + 1 = df.rows.length := by omega
            refine ⟨τ, ?_, ?_⟩
            · rw [List.getD_append _ _ _ _ (by omega)]
              have hidx : i = df.rows.length - 1 := by omega
              rw [hidx, getD_at_last]
              rw [lastRow] at hlastτ
              exact hlastτ
            · rw [hieq, getD_concat_at_length]
              exact hstep_t
        have hlink2 : ∀ τ' : ℚ,
            dictGetD (eulerStepValues m (dfLastRowDict df) dt) "t" none = some τ' →
            dictGet (lastRow (dfConcatRow df
              (eulerStepValues m (dfLastRowDict df) dt))) "t" = some (some τ') := by
          intro τ' hτ'
          rw [hnew_t] at hτ'
          injection hτ' with hτ'
          rw [lastRow_dfConcatRow, hstep_t, hτ']
        have hcols2 : ∀ k ∈ m.vars.map Prod.fst,
            k ∈ (dfConcatRow df (eulerStepValues m (dfLastRowDict df) dt)).cols :=
          fun k hk => mem_dfConcatRow_cols _ _ (hcols k hk)
        have hne2 : (dfConcatRow df (eulerStepValues m (dfLastRowDict df) dt)).rows ≠ [] := by
          rw [hrows2]
          simp
        exact ih _ _ df' h hcols2 hne2 (by rw [hnew_t] at hlink2 ⊢; exact hlink2) hchain2
    case isFalse hcond =>
      cases h
      exact hchain

/-- C5: for every registered model with the default `t` derivative and every
`euler_integrate` call with `step_size > 0` that returns a trajectory, the
`t` values of consecutive rows differ by exactly `step_size` and the sequence
is strictly increasing. -/
theorem c5_time_monotone (m : DynamicModel) (vi : VarDict) (t_final dt : ℚ) (fuel : ℕ)
    (df : DataFrame) (ti : VarInfo)
    (hnd : (m.vars.map Prod.fst).Nodup)
    (ht : "t" ∈ m.vars.map Prod.fst)
    (hti : dictGet m.vars "t" = some ti)
    (hfn : ∀ s, ti.derivative_function s ti.parameters = some 1)
    (hdt : 0 < dt)
    (hrun : (euler_integrate m vi t_final dt fuel).1 = .ok df) :
    ∀ i, i + 1 < df.rows.length →
      ∃ q : ℚ, dictGet (df.rows.getD i []) "t" = some (some q) ∧
        dictGet (df.rows.getD (i+1) []) "t" = some (some (q + dt)) ∧
        q < q + dt := by
  rw [euler_integrate_eq_loop m vi t_final dt fuel ht] at hrun
  have hrun' : eulerLoop m t_final dt fuel
      (dictGetD (lastRow (dfConcatRow (emptyDF m) (defaultT vi))) "t" none)
      (dfConcatRow (emptyDF m) (defaultT vi)) = .ok df := hrun
  have hcols0 : ∀ k ∈ m.vars.map Prod.fst,
      k ∈ (dfConcatRow (emptyDF m) (defaultT vi)).cols := by
    intro k hk
    exact mem_dfConcatRow_cols _ _ (show k ∈ (emptyDF m).cols from hk)
  have hne0 : (dfConcatRow (emptyDF m) (defaultT vi)).rows ≠ [] := by
    simp [dfConcatRow, emptyDF]
  have hlink0 : ∀ τ : ℚ,
      dictGetD (lastRow (dfConcatRow (emptyDF m) (defaultT vi))) "t" none = some τ →
      dictGet (lastRow (dfConcatRow (emptyDF m) (defaultT vi))) "t" = some (some τ) := by
    intro τ hτ
    rw [dictGetD] at hτ
    rcases hg : dictGet (lastRow (dfConcatRow (emptyDF m) (defaultT vi))) "t" with _ | v
    · rw [hg] at hτ
      simp at hτ
    · rw [hg] at hτ
      simp only [Option.getD_some] at hτ
      rw [hτ]
  have hchain0 : ∀ i, i + 1 < (dfConcatRow (emptyDF m) (defaultT vi)).rows.length →
      ∃ q : ℚ, dictGet ((dfConcatRow (emptyDF m) (defaultT vi)).rows.getD i []) "t" =
          some (some q) ∧
        dictGet ((dfConcatRow (emptyDF m) (defaultT vi)).rows.getD (i+1) []) "t" =
          some (some (q + dt)) := by
    intro i hi
    simp [dfConcatRow, emptyDF] at hi
  intro i hi
  obtain ⟨q, hq1, hq2⟩ := eulerLoop_time_chain m t_final dt ti hnd ht hti hfn fuel _ _ df
    hrun' hcols0 hne0 hlink0 hchain0 i hi
  exact ⟨q, hq1, hq2, by linarith⟩

/-- Witness for C5: the first consecutive pair of the concrete
`constModel` run from `{t: 0, x: -3}`. -/
theorem c5_time_monotone_witness :
    ∃ q : ℚ, dictGet (dfNegPlain.rows.getD 0 []) "t" = some (some q) ∧
      dictGet (dfNegPlain.rows.getD 1 []) "t" = some (some (q + 0.1)) ∧
      q < q + 0.1 :=
  c5_time_monotone constModel viNeg 0.05 0.1 2 dfNegPlain defaultTInfo
    (by decide) (by decide) rfl (fun _ => rfl) (by norm_num)
    (by with_unfolding_all decide) 0 (by decide)

theorem linspace_length (a b : ℚ) (n : ℕ) : (linspace a b n).length = n := by
  rw [linspace, List.length_map, List.length_range]

theorem matShape_meshgridX (xs ys : List ℚ) :
    matShape (meshgridX xs ys) ys.length xs.length := by
  refine ⟨by simp [meshgridX], ?_⟩
  intro row hrow
  rcases List.mem_map.mp hrow with ⟨y, _, hy⟩
  rw [← hy]

theorem matShape_meshgridY (xs ys : List ℚ) :
    matShape (meshgridY xs ys) ys.length xs.length := by
  refine ⟨by simp [meshgridY], ?_⟩
  intro row hrow
  rcases List.mem_map.mp hrow with ⟨y, _, hy⟩
  rw [← hy]
  simp

theorem matShape_emptyLike {m : Mat ℚ} {r c : ℕ} (h : matShape m r c) :
    matShape (emptyLike m) r c := by
  refine ⟨by simp [emptyLike, h.1], ?_⟩
  intro row hrow
  rcases List.mem_map.mp hrow with ⟨row0, hrow0, hr⟩
  rw [← hr]
  simpa using h.2 row0 hrow0

theorem mget_meshgridX {xs ys : List ℚ} {i j : ℕ} (hi : i < ys.length) (hj : j < xs.length) :
    mget (meshgridX xs ys) i j = some (xs.getD j 0) := by
  rw [mget, meshgridX, List.getElem?_map, List.getElem?_eq_getElem hi]
  simp only [Option.map_some', Option.some_bind]
  rw [List.getElem?_eq_getElem hj, List.getD_eq_getElem?_getD, List.getElem?_eq_getElem hj]
  rfl

theorem mget_meshgridY {xs ys : List ℚ} {i j : ℕ} (hi : i < ys.length) (hj : j < xs.length) :
    mget (meshgridY xs ys) i j = some (ys.getD i 0) := by
  rw [mget, meshgridY, List.getElem?_map, List.getElem?_eq_getElem hi]
  simp only [Option.map_some', Option.some_bind]
  rw [List.getElem?_map, List.getElem?_eq_getElem hj]
  simp only [Option.map_some']
  rw [List.getD_eq_getElem?_getD, List.getElem?_eq_getElem hi]
  rfl

theorem mset_spec {α : Type} {m : Mat α} {r c i j : ℕ} (hm : matShape m r c)
    (hi : i < r) (hj : j < c) (v : α) :
    ∃ m', mset m i j v = some m' ∧ matShape m' r c ∧
      mget m' i j = some v ∧
      ∀ i' j', ¬(i' = i ∧ j' = j) → mget m' i' j' = mget m i' j' := by
  obtain ⟨hr, hc⟩ := hm
  have hi' : i < m.length := by omega
  have hrow := List.getElem?_eq_getElem hi'
  have hmem : m[i] ∈ m := List.getElem?_mem hrow
  have hlen : m[i].length = c := hc _ hmem
  have hj' : j < m[i].length := by omega
  refine ⟨m.set i (m[i].set j v), ?_, ⟨by simp [hr], ?_⟩, ?_, ?_⟩
  · rw [mset, hrow]
    simp only [if_pos hj']
  · intro row hrowmem
    rcases List.mem_or_eq_of_mem_set hrowmem with hold | hnew
    · exact hc _ hold
    · rw [hnew]
      simp [hlen]
  · rw [mget, List.getElem?_set_self (by omega), Option.some_bind,
      List.getElem?_set_self hj']
  · intro i' j' hne
    by_cases hii : i' = i
    · subst hii
      have hjj : j' ≠ j := fun e => hne ⟨rfl, e⟩
      rw [mget, mget, List.getElem?_set_self (by omega), Option.some_bind, hrow,
        Option.some_bind, List.getElem?_set_ne (fun e => hjj e.symm)]
    · rw [mget, mget, List.getElem?_set_ne (fun e => hii e.symm)]

theorem forRange_zero {α : Type} (f : α → ℕ → Option α) (a : α) :
    forRange 0 f a = some a := rfl

theorem forRange_succ {α : Type} (n : ℕ) (f : α → ℕ → Option α) (a : α) :
    forRange (n + 1) f a = (forRange n f a).bind (fun b => f b n) := by
  rw [forRange, forRange, List.range_succ, List.foldlM_append]
  rcases (List.range n).foldlM f a with _ | b <;> simp

theorem fillCell_spec (m2 : DynamicModel2D) (xs ys : List ℚ) (t : ℚ) {n i j : ℕ}
    (hxs : xs.length = n) (hys : ys.length = n)
    {st : Mat Val × Mat Val} (h1 : matShape st.1 n n) (h2 : matShape st.2 n n)
    (hi : i < n) (hj : j < n) :
    ∃ st', fillCell m2 (meshgridX xs ys) (meshgridY xs ys) t st i j = some st' ∧
      matShape st'.1 n n ∧ matShape st'.2 n n ∧
      mget st'.1 i j = some (xTargetAt m2 xs ys t i j) ∧
      mget st'.2 i j = some (yTargetAt m2 xs ys t i j) ∧
      ∀ i' j', ¬(i' = i ∧ j' = j) →
        mget st'.1 i' j' = mget st.1 i' j' ∧ mget st'.2 i' j' = mget st.2 i' j' := by
  have hgx : mget (meshgridX xs ys) i j = some (xs.getD j 0) :=
    mget_meshgridX (by omega) (by omega)
  have hgy : mget (meshgridY xs ys) i j = some (ys.getD i 0) :=
    mget_meshgridY (by omega) (by omega)
  obtain ⟨Yd, hYd, hYshape, hYget, hYpres⟩ :=
    mset_spec h2 hi hj (dictGetD (gridDerivs m2 xs ys t i j) m2.variable_y none)
  obtain ⟨Xd, hXd, hXshape, hXget, hXpres⟩ :=
    mset_spec h1 hi hj (dictGetD (gridDerivs m2 xs ys t i j) m2.variable_x none)
  refine ⟨(Xd, Yd), ?_, hXshape, hYshape, hXget, hYget,
    fun i' j' hne => ⟨hXpres i' j' hne, hYpres i' j' hne⟩⟩
  rw [fillCell, hgx, hgy]
  show (mset st.2 i j (dictGetD (gridDerivs m2 xs ys t i j) m2.variable_y none)).bind
      (fun Yd2 => (mset st.1 i j
        (dictGetD (gridDerivs m2 xs ys t i j) m2.variable_x none)).bind
        (fun Xd2 => some (Xd2, Yd2))) = some (Xd, Yd)
  rw [hYd, hXd]
  rfl

theorem fillRow_spec (m2 : DynamicModel2D) (xs ys : List ℚ) (t : ℚ) {n i : ℕ}
    (hxs : xs.length = n) (hys : ys.length = n) (hi : i < n) :
    ∀ (k : ℕ) (st : Mat Val × Mat Val), k ≤ n →
      matShape st.1 n n → matShape st.2 n n →
      ∃ st', forRange k
          (fun s j => fillCell m2 (meshgridX xs ys) (meshgridY xs ys) t s i j) st
          = some st' ∧
        matShape st'.1 n n ∧ matShape st'.2 n n ∧
        (∀ j, j < k → mget st'.1 i j = some (xTargetAt m2 xs ys t i j) ∧
          mget st'.2 i j = some (yTargetAt m2 xs ys t i j)) ∧
        ∀ i' j', ¬(i' = i ∧ j' < k) →
          mget st'.1 i' j' = mget st.1 i' j' ∧ mget st'.2 i' j' = mget st.2 i' j' := by
  intro k
  induction k with
  | zero =>
    intro st _ h1 h2
    exact ⟨st, forRange_zero _ _, h1, h2, fun j hj => absurd hj (Nat.not_lt_zero j),
      fun _ _ _ => ⟨rfl, rfl⟩⟩
  | succ k ih =>
    intro st hk h1 h2
    obtain ⟨stk, hrunk, hk1, hk2, htgt, hpres⟩ := ih st (by omega) h1 h2
    obtain ⟨st', hcell, h1', h2', hx', hy', hpres'⟩ :=
      fillCell_spec m2 xs ys t hxs hys hk1 hk2 hi (show k < n by omega)
    refine ⟨st', ?_, h1', h2', ?_, ?_⟩
    · rw [forRange_succ, hrunk, Option.some_bind]
      exact hcell
    · intro j hj
      by_cases hjk : j < k
      · have hp := hpres' i j (fun hc => absurd hc.2 (by omega))
        rw [hp.1, hp.2]
        exact htgt j hjk
      · have hjeq : j = k := by omega
        subst hjeq
        exact ⟨hx', hy'⟩
    · intro i' j' hnot
      have hnot1 : ¬(i' = i ∧ j' < k) := fun hc => hnot ⟨hc.1, by omega⟩
      have hnot2 : ¬(i' = i ∧ j' = k) := fun hc => hnot ⟨hc.1, by omega⟩
      have p1 := hpres i' j' hnot1
      have p2 := hpres' i' j' hnot2
      exact ⟨p2.1.trans p1.1, p2.2.trans p1.2⟩

theorem fillGrid_spec (m2 : DynamicModel2D) (xs ys : List ℚ) (t : ℚ) {n : ℕ}
    (hxs : xs.length = n) (hys : ys.length = n) :
    ∀ (k : ℕ) (st : Mat Val × Mat Val), k ≤ n →
      matShape st.1 n n → matShape st.2 n n →
      ∃ st', forRange k
          (fun s i => forRange n
            (fun s2 j => fillCell m2 (meshgridX xs ys) (meshgridY xs ys) t s2 i j) s) st
          = some st' ∧
        matShape st'.1 n n ∧ matShape st'.2 n n ∧
        ∀ i j, i < k → j < n →
          mget st'.1 i j = some (xTargetAt m2 xs ys t i j) ∧
          mget st'.2 i j = some (yTargetAt m2 xs ys t i j) := by
  intro k
  induction k with
  | zero =>
    intro st _ h1 h2
    exact ⟨st, forRange_zero _ _, h1, h2, fun i j hi => absurd hi (Nat.not_lt_zero i)⟩
  | succ k ih =>
    intro st hk h1 h2
    obtain ⟨stk, hrunk, hk1, hk2, htgt⟩ := ih st (by omega) h1 h2
    obtain ⟨st', hrow, h1', h2', hrowtgt, hrowpres⟩ :=
      fillRow_spec m2 xs ys t hxs hys (show k < n by omega) n stk le_rfl hk1 hk2
    refine ⟨st', ?_, h1', h2', ?_⟩
    · rw [forRange_succ, hrunk, Option.some_bind]
      exact hrow
    · intro i j hi hj
      by_cases hik : i < k
      · have hp := hrowpres i j (fun hc => absurd hc.1 (by omega))
        rw [hp.1, hp.2]
        exact htgt i j hik hj
      · have hieq : i = k := by omega
        subst hieq
        exact hrowtgt j hj

/-- C2 counterexample: with `nx = 2 ≥ 1` and `ny = 1 ≥ 1` the grid sampler
returns no grids at all: the meshgrid arrays have shape `(ny, nx)` but the
fill loops index them as if they were `nx × ny`, and the run stops with an
IndexError (modelled by `none`). -/
theorem c2_counterexample :
    create_meshgrid_derivatives m2Const 2 1 (0, 1) (0, 1) 0 = none := by
  with_unfolding_all rfl

/-- C2 amended: the sampler works exactly on square grids.  For
`nx = ny = n ≥ 1` it returns the two meshgrid coordinate arrays and the two
derivative arrays, all four of shape `n × n`; at every cell `(i, j)` the
coordinate arrays read `xs[j]` and `ys[i]`, and `Xdot[i][j]` (resp.
`Ydot[i][j]`) equals the Derivative Evaluator applied to the snapshot
`{t: time, x_name: X[i][j], y_name: Y[i][j]}` at the x (resp. y) variable.
For `nx ≠ ny` the call instead raises IndexError (see the counterexample). -/
theorem c2_square_grid (m2 : DynamicModel2D) (n : ℕ) (Xlim Ylim : ℚ × ℚ) (t : ℚ)
    (hn : 1 ≤ n) :
    ∃ (Xdot Ydot : Mat Val),
      create_meshgrid_derivatives m2 n n Xlim Ylim t =
        some (meshgridX (linspace Xlim.1 Xlim.2 n) (linspace Ylim.1 Ylim.2 n),
          meshgridY (linspace Xlim.1 Xlim.2 n) (linspace Ylim.1 Ylim.2 n), Xdot, Ydot) ∧
      matShape (meshgridX (linspace Xlim.1 Xlim.2 n) (linspace Ylim.1 Ylim.2 n)) n n ∧
      matShape (meshgridY (linspace Xlim.1 Xlim.2 n) (linspace Ylim.1 Ylim.2 n)) n n ∧
      matShape Xdot n n ∧ matShape Ydot n n ∧
      ∀ i j, i < n → j < n →
        mget (meshgridX (linspace Xlim.1 Xlim.2 n) (linspace Ylim.1 Ylim.2 n)) i j =
          some ((linspace Xlim.1 Xlim.2 n).getD j 0) ∧
        mget (meshgridY (linspace Xlim.1 Xlim.2 n) (linspace Ylim.1 Ylim.2 n)) i j =
          some ((linspace Ylim.1 Ylim.2 n).getD i 0) ∧
        mget Xdot i j =
          some (xTargetAt m2 (linspace Xlim.1 Xlim.2 n) (linspace Ylim.1 Ylim.2 n) t i j) ∧
        mget Ydot i j =
          some (yTargetAt m2 (linspace Xlim.1 Xlim.2 n) (linspace Ylim.1 Ylim.2 n) t i j) := by
  have hxl : (linspace Xlim.1 Xlim.2 n).length = n := linspace_length _ _ _
  have hyl : (linspace Ylim.1 Ylim.2 n).length = n := linspace_length _ _ _
  have hshX : matShape (meshgridX (linspace Xlim.1 Xlim.2 n) (linspace Ylim.1 Ylim.2 n))
      n n := by
    have h := matShape_meshgridX (linspace Xlim.1 Xlim.2 n) (linspace Ylim.1 Ylim.2 n)
    rwa [hxl, hyl] at h
  have hshY : matShape (meshgridY (linspace Xlim.1 Xlim.2 n) (linspace Ylim.1 Ylim.2 n))
      n n := by
    have h := matShape_meshgridY (linspace Xlim.1 Xlim.2 n) (linspace Ylim.1 Ylim.2 n)
    rwa [hxl, hyl] at h
  obtain ⟨st', hrun, h1', h2', htgt⟩ :=
    fillGrid_spec m2 (linspace Xlim.1 Xlim.2 n) (linspace Ylim.1 Ylim.2 n) t hxl hyl n
      (emptyLike (meshgridX (linspace Xlim.1 Xlim.2 n) (linspace Ylim.1 Ylim.2 n)),
        emptyLike (meshgridY (linspace Xlim.1 Xlim.2 n) (linspace Ylim.1 Ylim.2 n)))
      le_rfl (matShape_emptyLike hshX) (matShape_emptyLike hshY)
  refine ⟨st'.1, st'.2, ?_, hshX, hshY, h1', h2', ?_⟩
  · simp only [create_meshgrid_derivatives]
    rw [hrun]
  · intro i j hi hj
    refine ⟨mget_meshgridX (by omega) (by omega), mget_meshgridY (by omega) (by omega),
      (htgt i j hi hj).1, (htgt i j hi hj).2⟩

/-- Witness for C2 amended at `m2Const`, `n = 2`, unit ranges, `t = 0`. -/
theorem c2_square_grid_witness :
    ∃ (Xdot Ydot : Mat Val),
      create_meshgrid_derivatives m2Const 2 2 (0, 1) (0, 1) 0 =
        some (meshgridX (linspace (0, 1).1 (0, 1).2 2) (linspace (0, 1).1 (0, 1).2 2),
          meshgridY (linspace (0, 1).1 (0, 1).2 2) (linspace (0, 1).1 (0, 1).2 2),
          Xdot, Ydot) ∧
      matShape (meshgridX (linspace (0, 1).1 (0, 1).2 2) (linspace (0, 1).1 (0, 1).2 2)) 2 2 ∧
      matShape (meshgridY (linspace (0, 1).1 (0, 1).2 2) (linspace (0, 1).1 (0, 1).2 2)) 2 2 ∧
      matShape Xdot 2 2 ∧ matShape Ydot 2 2 ∧
      ∀ i j, i < 2 → j < 2 →
        mget (meshgridX (linspace (0, 1).1 (0, 1).2 2) (linspace (0, 1).1 (0, 1).2 2)) i j =
          some ((linspace (0, 1).1 (0, 1).2 2).getD j 0) ∧
        mget (meshgridY (linspace (0, 1).1 (0, 1).2 2) (linspace (0, 1).1 (0, 1).2 2)) i j =
          some ((linspace (0, 1).1 (0, 1).2 2).getD i 0) ∧
        mget Xdot i j =
          some (xTargetAt m2Const (linspace (0, 1).1 (0, 1).2 2)
            (linspace (0, 1).1 (0, 1).2 2) 0 i j) ∧
        mget Ydot i j =
          some (yTargetAt m2Const (linspace (0, 1).1 (0, 1).2 2)
            (linspace (0, 1).1 (0, 1).2 2) 0 i j) :=
  c2_square_grid m2Const 2 (0, 1) (0, 1) 0 (by norm_num)
